import Mathlib

/-!
Verification development for the rstest annotation-argument parser
(src/parse.rs).  The parser is shallowly embedded: proc-macro token
trees become the inductive type Tok, syn's ParseStream becomes explicit
state passing over List Tok, and fallible parsing returns Except.
Composite punctuation (the double-colon and the fat arrow) is one token,
matching how syn peeks it as a unit.  The host language's expression,
type and string-lexing primitives are external collaborators; they are
modelled at their interface (an expression is a maximal comma-free token
run, a type is a maximal run before a closing angle bracket).  Spans are
modelled as Option (List Tok): none is Span.call_site, some ts is the
span of the token run ts.  The conditional compilation on the
use_proc_macro_diagnostic flag is a Boolean parameter useDiag threaded
through the argument parsers; a Rust panic is modelled as an error whose
panicked flag is set.
-/

namespace Rstest

/-- Delimiter of a proc-macro token group. -/
inductive Delim where
  | paren
  | bracket
  | brace
deriving DecidableEq

/-- Host-language literal token; string literals are distinguished because
the deprecated Unwrap form requires its inner argument to be one. -/
inductive LitT where
  | str (s : String)
  | other (s : String)
deriving DecidableEq

/-- One proc-macro token tree, as seen by the parser. -/
inductive Tok where
  | ident (s : String)
  | litTok (l : LitT)
  | colons
  | comma
  | arrow
  | lt
  | gt
  | eqTok
  | group (d : Delim) (ts : List Tok)

mutual

/-- Boolean equality of tokens (structural). -/
def Tok.beq : Tok → Tok → Bool
  | .ident a, .ident b => a == b
  | .litTok a, .litTok b => a == b
  | .colons, .colons => true
  | .comma, .comma => true
  | .arrow, .arrow => true
  | .lt, .lt => true
  | .gt, .gt => true
  | .eqTok, .eqTok => true
  | .group d1 l1, .group d2 l2 => (d1 == d2) && Tok.beqList l1 l2
  | _, _ => false

/-- Boolean equality of token lists (structural). -/
def Tok.beqList : List Tok → List Tok → Bool
  | [], [] => true
  | a :: as, b :: bs => Tok.beq a b && Tok.beqList as bs
  | _, _ => false

end

mutual

/-- Structural weight of a token, used to compute fuel bounds. -/
def Tok.wt : Tok → Nat
  | .group _ ts => 1 + toksWt ts
  | _ => 1

/-- Structural weight of a token list. -/
def toksWt : List Tok → Nat
  | [] => 0
  | t :: ts => Tok.wt t + toksWt ts

end

/-- A positioned parse error.  The span is none for Span.call_site and
some ts for the span of the token run ts.  panicked marks a Rust panic
(as opposed to a returned syn Error). -/
structure PError where
  span : Option (List Tok)
  msg : String
  panicked : Bool

/-- Error used when a fuel-bounded loop runs out of fuel; wrappers always
supply enough fuel, so well-formed calls never produce it. -/
def fuelErr : PError :=
  ⟨none, r"internal: insufficient fuel", false⟩

/-- Check whether an Except value is a success. -/
def isOkE : Except PError α → Bool
  | .ok _ => true
  | .error _ => false

/-- Parse one identifier token (syn's Ident parse). -/
def parseIdent : List Tok → Except PError (String × List Tok)
  | .ident s :: rest => .ok (s, rest)
  | ts => .error ⟨ts.head?.map (fun t => [t]), r"expected identifier", false⟩

/-- Consume one expected token (syn's token parses, e.g. for the arrow,
the double-colon and the angle brackets). -/
def expectTok (t : Tok) : List Tok → Except PError (List Tok)
  | x :: rest =>
      if Tok.beq x t then .ok rest
      else .error ⟨some [x], r"expected token", false⟩
  | [] => .error ⟨none, r"unexpected end of input", false⟩

/-- An expression of the host language, opaque beyond the tokens it was
parsed from.  The relexed form records an expression re-parsed from the
contents of a string literal (the deprecated Unwrap form). -/
inductive ExprT where
  | tokens (ts : List Tok)
  | relexed (s : String)

/-- Model of the external host-language expression parser at its
interface: it consumes a maximal nonempty run of tokens containing no
top-level comma, and fails on an empty run. -/
def parseExpr (ts : List Tok) : Except PError (ExprT × List Tok) :=
  let e := ts.takeWhile (fun t => !Tok.beq t Tok.comma)
  if e.isEmpty then
    .error ⟨ts.head?.map (fun t => [t]), r"expected expression", false⟩
  else
    .ok (.tokens e, ts.drop e.length)

/-- Model of the external host-language type parser at its interface: it
consumes a maximal nonempty run of tokens before a top-level closing
angle bracket. -/
def parseType (ts : List Tok) : Except PError (List Tok × List Tok) :=
  let e := ts.takeWhile (fun t => !Tok.beq t Tok.gt)
  if e.isEmpty then
    .error ⟨ts.head?.map (fun t => [t]), r"expected type", false⟩
  else
    .ok (e, ts.drop e.length)

/-- Model of the external host-language expression parser applied to the
re-lexed contents of a string literal, at its interface. -/
def litStrParseExpr (s : String) : Except PError ExprT :=
  .ok (.relexed s)

/-- Fuel-bounded model of syn's Punctuated parse_terminated: a possibly
empty separated list that must consume the whole stream, tolerating one
trailing separator.  Wrappers pass fuel larger than the stream length. -/
def parseTerminatedF (p : List Tok → Except PError (α × List Tok)) (sep : Tok) :
    Nat → List Tok → Except PError (List α)
  | _, [] => .ok []
  | 0, _ :: _ => .error fuelErr
  | f + 1, t :: ts => do
      let (a, rest) ← p (t :: ts)
      match rest with
      | [] => .ok [a]
      | r :: rest2 =>
          if Tok.beq r sep then
            (parseTerminatedF p sep f rest2).map (fun l => a :: l)
          else
            .error ⟨some [r], r"expected separator", false⟩

/-- Fuel-bounded model of syn's Punctuated parse_separated_nonempty_with
applied to the option-wrapping closure of parse_vector_trailing: the
element parser returns none exactly when the remaining stream is empty,
and the loop stops at the first position whose head is not the
separator. -/
def parseSepNonemptyOptF (p : List Tok → Except PError (α × List Tok)) (sep : Tok) :
    Nat → List Tok → Except PError (List (Option α) × List Tok)
  | 0, _ => .error fuelErr
  | f + 1, ts => do
      let (av, rest) ←
        (match ts with
         | [] => Except.ok ((none : Option α), ([] : List Tok))
         | t :: ts2 => (p (t :: ts2)).map (fun pr => (some pr.1, pr.2)))
      match rest with
      | r :: rest2 =>
          if Tok.beq r sep then
            (parseSepNonemptyOptF p sep f rest2).map (fun pr => (av :: pr.1, pr.2))
          else
            .ok ([av], r :: rest2)
      | [] => .ok ([av], [])

/-- The parse_vector_trailing helper of parse.rs: a comma-separated item
list where an empty trailing slot is silently dropped. -/
def parseVectorTrailing (p : List Tok → Except PError (α × List Tok))
    (ts : List Tok) : Except PError (List α × List Tok) :=
  (parseSepNonemptyOptF p Tok.comma (ts.length + 1) ts).map
    (fun pr => (pr.1.filterMap id, pr.2))

/-- Comma-join a list of token runs (used to describe inputs of the form
E1, E2, ..., En). -/
def joinComma : List (List Tok) → List Tok
  | [] => []
  | [e] => e
  | e :: es => e ++ Tok.comma :: joinComma es

mutual

/-- A syn 0.15 Meta value: a bare word, a parenthesized list of nested
metas, or a name-value pair whose value is a literal. -/
inductive MetaT where
  | word (i : String)
  | list (i : String) (nested : List NestedMetaT)
  | nameValue (i : String) (l : LitT)

/-- A syn 0.15 NestedMeta value: a Meta or a literal. -/
inductive NestedMetaT where
  | meta (m : MetaT)
  | lit (l : LitT)

end

mutual

/-- Render a Meta value back to the token run it was parsed from (models
its span, as used by syn's Error new_spanned and the span method). -/
def MetaT.toToks : MetaT → List Tok
  | .word i => [Tok.ident i]
  | .list i ns => [Tok.ident i, Tok.group .paren (nestedListToToks ns)]
  | .nameValue i l => [Tok.ident i, Tok.eqTok, Tok.litTok l]

/-- Render a NestedMeta value back to its token run. -/
def NestedMetaT.toToks : NestedMetaT → List Tok
  | .meta m => m.toToks
  | .lit l => [Tok.litTok l]

/-- Render a comma-separated nested-meta list back to its token run. -/
def nestedListToToks : List NestedMetaT → List Tok
  | [] => []
  | [n] => n.toToks
  | n :: ns => n.toToks ++ Tok.comma :: nestedListToToks ns

end

mutual

/-- Fuel-bounded model of syn 0.15 NestedMeta parsing: a literal, or an
identifier optionally followed by a parenthesized nested-meta list or by
an equals sign and a literal. -/
def nestedMetaParseF : Nat → List Tok → Except PError (NestedMetaT × List Tok)
  | 0, _ => .error fuelErr
  | f + 1, ts =>
      match ts with
      | .litTok l :: rest => .ok (.lit l, rest)
      | .ident i :: .group .paren inner :: rest =>
          (nestedListParseF f inner).map (fun ns => (.meta (.list i ns), rest))
      | .ident i :: .eqTok :: .litTok l :: rest => .ok (.meta (.nameValue i l), rest)
      | .ident _ :: .eqTok :: rest =>
          .error ⟨rest.head?.map (fun t => [t]), r"expected literal", false⟩
      | .ident i :: rest => .ok (.meta (.word i), rest)
      | other => .error ⟨other.head?.map (fun t => [t]), r"expected identifier or literal", false⟩

/-- Fuel-bounded model of the comma-separated, trailing-comma-tolerant
nested-meta list inside a Meta list's parentheses. -/
def nestedListParseF : Nat → List Tok → Except PError (List NestedMetaT)
  | 0, _ => .error fuelErr
  | _ + 1, [] => .ok []
  | f + 1, t :: ts => do
      let (a, rest) ← nestedMetaParseF f (t :: ts)
      match rest with
      | [] => .ok [a]
      | .comma :: rest2 => (nestedListParseF f rest2).map (fun l => a :: l)
      | r :: _ => .error ⟨some [r], r"expected separator", false⟩

end

/-- Parse one NestedMeta from the stream (syn 0.15 NestedMeta parse). -/
def nestedMetaParse (ts : List Tok) : Except PError (NestedMetaT × List Tok) :=
  nestedMetaParseF (toksWt ts + 1) ts

/-- The UnwrapRustCode get_unwrap accessor: require a Meta list whose
identifier is the fixed keyword Unwrap. -/
def getUnwrap (nm : NestedMetaT) : Except PError (String × List NestedMetaT) :=
  match nm with
  | .meta (.list i ns) =>
      if i = r"Unwrap" then .ok (i, ns)
      else .error ⟨some nm.toToks, r"Not a valid string rust code", false⟩
  | _ => .error ⟨some nm.toToks, r"Not a valid string rust code", false⟩

/-- The nested_meta_literal_str accessor: the string literal inside a
NestedMeta, if any. -/
def nestedMetaLiteralStr : NestedMetaT → Option String
  | .lit (.str s) => some s
  | _ => none

/-- The report_deprecated notice.  With the compiler-diagnostic backend
(useDiag = true) a warning is emitted externally and parsing proceeds.
With the console backend (useDiag = false) the code prints the string
contents it obtains by calling Option.unwrap on the first nested item's
string literal, so it panics when that item is not a string literal;
the panic is modelled as a panicked error. -/
def reportDeprecated (useDiag : Bool) (nm : NestedMetaT) : Except PError Unit :=
  if useDiag then .ok ()
  else
    match nm with
    | .meta (.list _ ns) =>
        match ns.head?.bind nestedMetaLiteralStr with
        | some _ => .ok ()
        | none => .error ⟨none, r"panicked: called Option unwrap on a None value", true⟩
    | _ => .error ⟨none, r"panicked: internal error: entered unreachable code", true⟩

/-- The UnwrapRustCode peek: on a fork, parse a NestedMeta and check that
get_unwrap accepts it.  Only the outer shape is checked; the
string-literal requirement on the inner argument is not. -/
def unwrapPeek (ts : List Tok) : Bool :=
  match nestedMetaParse ts with
  | .ok (nm, _) => isOkE (getUnwrap nm)
  | .error _ => false

/-- The UnwrapRustCode parse: a NestedMeta of the shape Unwrap(...) whose
sole inner argument must be a string literal, whose contents are
re-parsed as an expression.  report_deprecated runs before the
string-literal requirement is checked. -/
def unwrapRustCodeParse (useDiag : Bool) (ts : List Tok) :
    Except PError (ExprT × List Tok) := do
  let (nm, rest) ← nestedMetaParse ts
  let _ ← reportDeprecated useDiag nm
  let (i, ns) ← getUnwrap nm
  match ns.head?.bind nestedMetaLiteralStr with
  | some s => (litStrParseExpr s).map (fun e => (e, rest))
  | none => .error ⟨some nm.toToks, (r"Invalid " ++ i ++ r" argument"), false⟩

/-- A test case's argument: a wrapped expression (CaseArg in parse.rs). -/
structure CaseArg where
  expr : ExprT

/-- The CaseArg parse: if the Unwrap peek succeeds on a fork, commit to
the deprecated wrapped form; otherwise parse a host-language expression
directly, wrapping a failure's message. -/
def CaseArg.parse (useDiag : Bool) (ts : List Tok) :
    Except PError (CaseArg × List Tok) :=
  if unwrapPeek ts then
    (unwrapRustCodeParse useDiag ts).map (fun pr => (⟨pr.1⟩, pr.2))
  else
    match parseExpr ts with
    | .ok (e, rest) => .ok (⟨e⟩, rest)
    | .error err => .error ⟨err.span, (r"Cannot parse due " ++ err.msg), false⟩

/-- A test case node: ordered arguments plus an optional description
(TestCase in parse.rs). -/
structure TestCase where
  args : List CaseArg
  description : Option String

/-- The TestCase parse: the keyword case, an optional double-colon and
description identifier, then a parenthesized comma-separated argument
list. -/
def TestCase.parse (useDiag : Bool) (ts : List Tok) :
    Except PError (TestCase × List Tok) := do
  let (c, r1) ← parseIdent ts
  if c = r"case" then do
    let (description, r2) ←
      (match r1 with
       | .colons :: r1b => (parseIdent r1b).map (fun pr => (some pr.1, pr.2))
       | _ => Except.ok ((none : Option String), r1))
    match r2 with
    | .group .paren inner :: r3 => do
        let args ← parseTerminatedF (CaseArg.parse useDiag) Tok.comma (inner.length + 1) inner
        .ok (⟨args, description⟩, r3)
    | other => .error ⟨other.head?.map (fun t => [t]), r"expected parentheses", false⟩
  else
    .error ⟨some [Tok.ident c], r"expected a test case", false⟩

/-- A fixture node: a name and its positional construction expressions
(Fixture in parse.rs). -/
structure Fixture where
  name : String
  positional : List ExprT

/-- The Fixture parse: an identifier then a required parenthesized
comma-separated expression list. -/
def Fixture.parse (ts : List Tok) : Except PError (Fixture × List Tok) := do
  let (name, r1) ← parseIdent ts
  match r1 with
  | .group .paren inner :: r2 => do
      let positional ← parseTerminatedF
        (fun s => (parseExpr s).map (fun pr => (pr.1, pr.2))) Tok.comma
        (inner.length + 1) inner
      .ok (⟨name, positional⟩, r2)
  | other => .error ⟨other.head?.map (fun t => [t]), r"expected parentheses", false⟩

/-- A value-list node: a name bound to case argument values (ValueList in
parse.rs). -/
structure ValueList where
  arg : String
  values : List CaseArg

/-- The ValueList parse: an identifier, the arrow token, then a required
bracketed comma-separated value list; after a structurally successful
parse an empty values sequence is rejected with an error positioned at
the bracket group. -/
def ValueList.parse (useDiag : Bool) (ts : List Tok) :
    Except PError (ValueList × List Tok) := do
  let (arg, r1) ← parseIdent ts
  let r2 ← expectTok Tok.arrow r1
  match r2 with
  | .group .bracket inner :: r3 => do
      let values ← parseTerminatedF (CaseArg.parse useDiag) Tok.comma (inner.length + 1) inner
      if values.length = 0 then
        .error ⟨some [Tok.group .bracket inner], r"Values list should not be empty", false⟩
      else
        .ok (⟨arg, values⟩, r3)
  | other => .error ⟨other.head?.map (fun t => [t]), r"expected square brackets", false⟩

/-- A modifier entry (RsTestAttribute in parse.rs): a bare flag, a tagged
group of identifiers, or a typed binding. -/
inductive RsTestAttribute where
  | Attr (i : String)
  | Tagged (i : String) (args : List String)
  | Type (i : String) (ty : List Tok)

/-- The no_literal_nested check: a literal where a meta item is required
is an error. -/
def noLiteralNested : NestedMetaT → Except PError MetaT
  | .meta m => .ok m
  | .lit l => .error ⟨some [Tok.litTok l], r"Unexpected literal", false⟩

/-- The just_word_meta check: anything but a bare word meta is an error. -/
def justWordMeta : MetaT → Except PError String
  | .word i => .ok i
  | other => .error ⟨some other.toToks, r"Should be an ident", false⟩

/-- The meta branch of the RsTestAttribute parse: one NestedMeta is
parsed and classified (a word is a bare flag, a list of words is a
tagged group, and the name-value shape is rejected). -/
def rsTestAttributeMeta (ts : List Tok) :
    Except PError (RsTestAttribute × List Tok) := do
  let (nm, rest) ← nestedMetaParse ts
  let m ← noLiteralNested nm
  match m with
  | .word i => .ok (.Attr i, rest)
  | .list i ns => do
      let ms ← ns.mapM noLiteralNested
      let ids ← ms.mapM justWordMeta
      .ok (.Tagged i ids, rest)
  | .nameValue i l =>
      .error ⟨some (MetaT.toToks (.nameValue i l)), r"Invalid attribute", false⟩

/-- The RsTestAttribute parse: if the token two positions ahead is an
opening angle bracket, parse identifier, angle bracket, one type
expression and closing angle bracket as the Type variant; otherwise
parse and classify one generic meta shape. -/
def RsTestAttribute.parse (ts : List Tok) :
    Except PError (RsTestAttribute × List Tok) :=
  match ts with
  | t0 :: .lt :: ts2 => do
      let (tag, r1) ← parseIdent (t0 :: Tok.lt :: ts2)
      let r2 ← expectTok Tok.lt r1
      let (inner, r3) ← parseType r2
      let r4 ← expectTok Tok.gt r3
      .ok (.Type tag inner, r4)
  | _ => rsTestAttributeMeta ts

/-- A modifier chain (Modifiers in parse.rs): double-colon-separated
modifier entries. -/
structure Modifiers where
  modifiers : List RsTestAttribute

/-- The Modifiers parse: a double-colon-terminated sequence of entries
that consumes the rest of the stream. -/
def Modifiers.parse (ts : List Tok) : Except PError (Modifiers × List Tok) :=
  (parseTerminatedF RsTestAttribute.parse Tok.colons (ts.length + 1) ts).map
    (fun l => (⟨l⟩, ([] : List Tok)))

/-- One slot of a parametrize item list (ParametrizeItem in parse.rs). -/
inductive ParametrizeItem where
  | Fixture (f : Rstest.Fixture)
  | CaseArgName (i : String)
  | TestCase (c : Rstest.TestCase)

/-- The ParametrizeItem parse: try TestCase on a fork, else Fixture on a
fork, else a bare identifier on a fork, committing to the first that
succeeds; if none matches, fail with the generic error carried at the
call-site span. -/
def ParametrizeItem.parse (useDiag : Bool) (ts : List Tok) :
    Except PError (ParametrizeItem × List Tok) :=
  if isOkE (TestCase.parse useDiag ts) then
    (TestCase.parse useDiag ts).map (fun pr => (.TestCase pr.1, pr.2))
  else if isOkE (Fixture.parse ts) then
    (Fixture.parse ts).map (fun pr => (.Fixture pr.1, pr.2))
  else if isOkE (parseIdent ts) then
    (parseIdent ts).map (fun pr => (.CaseArgName pr.1, pr.2))
  else
    .error ⟨none, r"Cannot parse parametrize info", false⟩

/-- The parametrize item list (ParametrizeData in parse.rs). -/
structure ParametrizeData where
  data : List ParametrizeItem

/-- The ParametrizeData parse: parse_vector_trailing over parametrize
items (no double-colon guard). -/
def ParametrizeData.parse (useDiag : Bool) (ts : List Tok) :
    Except PError (ParametrizeData × List Tok) :=
  (parseVectorTrailing (ParametrizeItem.parse useDiag) ts).map
    (fun pr => (⟨pr.1⟩, pr.2))

/-- A parametrize directive (ParametrizeInfo in parse.rs). -/
structure ParametrizeInfo where
  data : ParametrizeData
  modifiers : Modifiers

/-- The ParametrizeInfo parse: the item list, then a double-colon token
whose failure is replaced by a default token without consuming input,
then the modifier chain parsed from whatever remains. -/
def ParametrizeInfo.parse (useDiag : Bool) (ts : List Tok) :
    Except PError (ParametrizeInfo × List Tok) := do
  let (d, r1) ← ParametrizeData.parse useDiag ts
  let r2 := match r1 with
            | .colons :: r1b => r1b
            | _ => r1
  (Modifiers.parse r2).map (fun pr => (⟨d, pr.1⟩, pr.2))

/-- One slot of a matrix item list (MatrixItem in parse.rs). -/
inductive MatrixItem where
  | ValueList (v : Rstest.ValueList)
  | Fixture (f : Rstest.Fixture)

/-- The MatrixItem parse: if the token two positions ahead is the arrow
token, parse a ValueList; else try Fixture on a fork; else fail with the
generic error carried at the call-site span. -/
def MatrixItem.parse (useDiag : Bool) (ts : List Tok) :
    Except PError (MatrixItem × List Tok) :=
  match ts with
  | t0 :: .arrow :: ts2 =>
      (ValueList.parse useDiag (t0 :: Tok.arrow :: ts2)).map
        (fun pr => (.ValueList pr.1, pr.2))
  | _ =>
      if isOkE (Fixture.parse ts) then
        (Fixture.parse ts).map (fun pr => (.Fixture pr.1, pr.2))
      else
        .error ⟨none, r"Cannot parse matrix info", false⟩

/-- The matrix item list (MatrixValues in parse.rs). -/
structure MatrixValues where
  values : List MatrixItem

/-- A matrix directive (MatrixInfo in parse.rs). -/
structure MatrixInfo where
  args : MatrixValues
  modifiers : Modifiers

/-- The MatrixInfo parse: parse_vector_trailing over matrix items (no
double-colon guard), then the same optional double-colon and modifier
chain as ParametrizeInfo. -/
def MatrixInfo.parse (useDiag : Bool) (ts : List Tok) :
    Except PError (MatrixInfo × List Tok) := do
  let (items, r1) ← (parseVectorTrailing (MatrixItem.parse useDiag) ts).map
    (fun pr => (MatrixValues.mk pr.1, pr.2))
  let r2 := match r1 with
            | .colons :: r1b => r1b
            | _ => r1
  (Modifiers.parse r2).map (fun pr => (⟨items, pr.1⟩, pr.2))

/-- One rstest item (RsTestItem in parse.rs): today only a fixture. -/
inductive RsTestItem where
  | Fixture (f : Rstest.Fixture)

/-- The RsTestItem parse: always a Fixture. -/
def RsTestItem.parse (ts : List Tok) : Except PError (RsTestItem × List Tok) :=
  (Fixture.parse ts).map (fun pr => (.Fixture pr.1, pr.2))

/-- The rstest item list (RsTestData in parse.rs). -/
structure RsTestData where
  items : List RsTestItem

/-- The RsTestData parse: if the input begins with the double-colon
token, return the default empty list without consuming anything; else
parse_vector_trailing over rstest items. -/
def RsTestData.parse (ts : List Tok) : Except PError (RsTestData × List Tok) :=
  match ts with
  | .colons :: rest => .ok (⟨[]⟩, Tok.colons :: rest)
  | _ => (parseVectorTrailing RsTestItem.parse ts).map (fun pr => (⟨pr.1⟩, pr.2))

/-- An rstest directive (RsTestInfo in parse.rs).  The RsTestModifiers
newtype lives in the modifiers module, which is not part of the sources;
modelled from the spec: a Composite Directive pairs its item list with a
trailing Modifier Chain, so the modifiers field is the chain itself. -/
structure RsTestInfo where
  data : RsTestData
  modifiers : Modifiers

/-- The RsTestInfo parse: default on empty input; otherwise the item
list, then the optional double-colon and the modifier chain parsed from
whatever remains. -/
def RsTestInfo.parse (ts : List Tok) : Except PError (RsTestInfo × List Tok) :=
  if ts.isEmpty then .ok (⟨⟨[]⟩, ⟨[]⟩⟩, ts)
  else do
    let (d, r1) ← RsTestData.parse ts
    let r2 := match r1 with
              | .colons :: r1b => r1b
              | _ => r1
    (Modifiers.parse r2).map (fun pr => (⟨d, pr.1⟩, pr.2))

/-- One fixture item (FixtureItem in parse.rs): today only a fixture. -/
inductive FixtureItem where
  | Fixture (f : Rstest.Fixture)

/-- The FixtureItem parse: always a Fixture. -/
def FixtureItem.parse (ts : List Tok) : Except PError (FixtureItem × List Tok) :=
  (Fixture.parse ts).map (fun pr => (.Fixture pr.1, pr.2))

/-- The fixture item list (FixtureData in parse.rs). -/
structure FixtureData where
  items : List FixtureItem

/-- The FixtureData parse: the same double-colon guard and item list as
RsTestData, over fixture items. -/
def FixtureData.parse (ts : List Tok) : Except PError (FixtureData × List Tok) :=
  match ts with
  | .colons :: rest => .ok (⟨[]⟩, Tok.colons :: rest)
  | _ => (parseVectorTrailing FixtureItem.parse ts).map (fun pr => (⟨pr.1⟩, pr.2))

/-- A fixture directive (FixtureInfo in parse.rs).  The FixtureModifiers
newtype lives in the modifiers module, which is not part of the sources;
modelled from the spec: a Composite Directive pairs its item list with a
trailing Modifier Chain, so the modifiers field is the chain itself. -/
structure FixtureInfo where
  data : FixtureData
  modifiers : Modifiers

/-- The FixtureInfo parse: default on empty input; otherwise the item
list, then the optional double-colon and the modifier chain parsed from
whatever remains. -/
def FixtureInfo.parse (ts : List Tok) : Except PError (FixtureInfo × List Tok) :=
  if ts.isEmpty then .ok (⟨⟨[]⟩, ⟨[]⟩⟩, ts)
  else do
    let (d, r1) ← FixtureData.parse ts
    let r2 := match r1 with
              | .colons :: r1b => r1b
              | _ => r1
    (Modifiers.parse r2).map (fun pr => (⟨d, pr.1⟩, pr.2))

/-- Does the stream begin with the deprecated Unwrap-call shape: the
identifier Unwrap followed by a parenthesized group? -/
def isUnwrapCallShape : List Tok → Bool
  | .ident i :: .group .paren _ :: _ => decide (i = r"Unwrap")
  | _ => false

theorem bind_ok_P (x : α) (f : α → Except PError β) :
    ((Except.ok x : Except PError α) >>= f) = f x := rfl

theorem bind_error_P (e : PError) (f : α → Except PError β) :
    ((Except.error e : Except PError α) >>= f) = .error e := rfl

theorem map_ok_P (g : α → β) (x : α) :
    Except.map g (Except.ok x : Except PError α) = .ok (g x) := rfl

theorem map_error_P (g : α → β) (e : PError) :
    Except.map g (.error e : Except PError α) = .error e := rfl

theorem tok_beq_comma_self : Tok.beq Tok.comma Tok.comma = true := rfl

theorem tok_beq_comma_false : ∀ t : Tok, t ≠ Tok.comma → Tok.beq t Tok.comma = false := by
  intro t h
  cases t
  case comma => exact absurd rfl h
  all_goals rfl

theorem takeWhile_noComma_self (E : List Tok) (h : Tok.comma ∉ E) :
    E.takeWhile (fun t => !Tok.beq t Tok.comma) = E := by
  induction E with
  | nil => rfl
  | cons a E ih =>
      have ha : a ≠ Tok.comma := fun hc => h (hc ▸ List.mem_cons_self a E)
      have hE : Tok.comma ∉ E := fun hc => h (List.mem_cons_of_mem a hc)
      simp [List.takeWhile, tok_beq_comma_false a ha, ih hE]

theorem takeWhile_noComma_append (E r : List Tok) (h : Tok.comma ∉ E) :
    (E ++ Tok.comma :: r).takeWhile (fun t => !Tok.beq t Tok.comma) = E := by
  induction E with
  | nil => rfl
  | cons a E ih =>
      have ha : a ≠ Tok.comma := fun hc => h (hc ▸ List.mem_cons_self a E)
      have hE : Tok.comma ∉ E := fun hc => h (List.mem_cons_of_mem a hc)
      simp [List.takeWhile, tok_beq_comma_false a ha, ih hE]

theorem parseExpr_append (E r : List Tok) (h : Tok.comma ∉ E) (hne : E ≠ []) :
    parseExpr (E ++ Tok.comma :: r) = .ok (.tokens E, Tok.comma :: r) := by
  unfold parseExpr
  rw [takeWhile_noComma_append E r h]
  obtain ⟨a, E2, rfl⟩ := List.exists_cons_of_ne_nil hne
  simp [List.drop_left]

theorem parseExpr_self (E : List Tok) (h : Tok.comma ∉ E) (hne : E ≠ []) :
    parseExpr E = .ok (.tokens E, []) := by
  unfold parseExpr
  rw [takeWhile_noComma_self E h]
  obtain ⟨a, E2, rfl⟩ := List.exists_cons_of_ne_nil hne
  simp [List.drop_length]

theorem unwrapPeek_of_shape : ∀ ts : List Tok, isUnwrapCallShape ts = false → unwrapPeek ts = false := by
  intro ts h
  unfold unwrapPeek nestedMetaParse
  cases ts with
  | nil => rfl
  | cons t0 rest =>
    cases t0
    case ident i =>
      cases rest with
      | nil => rfl
      | cons t1 rest2 =>
        cases t1
        case group d inner =>
          cases d
          case paren =>
            have hi : ¬ (i = r"Unwrap") := by simpa [isUnwrapCallShape] using h
            have hred : nestedMetaParseF
                (toksWt (Tok.ident i :: Tok.group Delim.paren inner :: rest2) + 1)
                (Tok.ident i :: Tok.group Delim.paren inner :: rest2) =
                (nestedListParseF (toksWt (Tok.ident i :: Tok.group Delim.paren inner :: rest2)) inner).map
                  (fun ns => (NestedMetaT.meta (.list i ns), rest2)) := rfl
            rw [hred]
            cases hls : nestedListParseF (toksWt (Tok.ident i :: Tok.group Delim.paren inner :: rest2)) inner with
            | error e => simp [Except.map]
            | ok ns => simp [Except.map, getUnwrap, isOkE, hi]
          case bracket => rfl
          case brace => rfl
        case eqTok =>
          cases rest2 with
          | nil => rfl
          | cons t2 rest3 => cases t2 <;> rfl
        all_goals rfl
    all_goals rfl

theorem isUnwrapCallShape_append (E r : List Tok) (h : isUnwrapCallShape E = false) :
    isUnwrapCallShape (E ++ Tok.comma :: r) = false := by
  cases E with
  | nil => rfl
  | cons a E2 =>
    cases E2 with
    | nil => cases a <;> rfl
    | cons b E3 =>
      cases a
      case ident i =>
        cases b
        case group d inner =>
          cases d
          case paren => simpa [isUnwrapCallShape] using h
          case bracket => rfl
          case brace => rfl
        all_goals rfl
      all_goals rfl

theorem caseArg_direct_append (useDiag : Bool) (E r : List Tok)
    (h1 : Tok.comma ∉ E) (h2 : E ≠ []) (h3 : isUnwrapCallShape E = false) :
    CaseArg.parse useDiag (E ++ Tok.comma :: r) = .ok (⟨.tokens E⟩, Tok.comma :: r) := by
  simp [CaseArg.parse, unwrapPeek_of_shape _ (isUnwrapCallShape_append E r h3),
        parseExpr_append E r h1 h2]

theorem caseArg_direct_self (useDiag : Bool) (E : List Tok)
    (h1 : Tok.comma ∉ E) (h2 : E ≠ []) (h3 : isUnwrapCallShape E = false) :
    CaseArg.parse useDiag E = .ok (⟨.tokens E⟩, []) := by
  simp [CaseArg.parse, unwrapPeek_of_shape E h3, parseExpr_self E h1 h2]

theorem parseTerminatedF_nil (p : List Tok → Except PError (α × List Tok)) (sep : Tok)
    (f : Nat) : parseTerminatedF p sep f [] = .ok [] := by
  cases f <;> rfl

theorem terminated_joinComma (useDiag : Bool) :
    ∀ (Es : List (List Tok)) (f : Nat),
      (∀ E ∈ Es, E ≠ [] ∧ Tok.comma ∉ E ∧ isUnwrapCallShape E = false) →
      Es.length ≤ f →
      parseTerminatedF (CaseArg.parse useDiag) Tok.comma f (joinComma Es) =
        .ok (Es.map (fun E => ⟨ExprT.tokens E⟩)) := by
  intro Es
  induction Es with
  | nil => intro f h hf; exact parseTerminatedF_nil _ _ f
  | cons E Es ih =>
    intro f h hf
    obtain ⟨hne, hnc, hsh⟩ := h E (List.mem_cons_self E Es)
    have hrest : ∀ X ∈ Es, X ≠ [] ∧ Tok.comma ∉ X ∧ isUnwrapCallShape X = false :=
      fun X hX => h X (List.mem_cons_of_mem E hX)
    cases f with
    | zero => simp at hf
    | succ f2 =>
      have hf2 : Es.length ≤ f2 := by simpa using hf
      cases Es with
      | nil =>
        obtain ⟨a, E2, hEa⟩ := List.exists_cons_of_ne_nil hne
        have hp := caseArg_direct_self useDiag E hnc hne hsh
        rw [show joinComma [E] = E from rfl]
        rw [hEa] at hp ⊢
        simp [parseTerminatedF, hp, bind_ok_P]
      | cons E2 Es2 =>
        have hp := caseArg_direct_append useDiag E (joinComma (E2 :: Es2)) hnc hne hsh
        obtain ⟨a, E3, hEa⟩ := List.exists_cons_of_ne_nil hne
        have hjoin : joinComma (E :: E2 :: Es2) = E ++ Tok.comma :: joinComma (E2 :: Es2) := rfl
        rw [hjoin]
        rw [hEa] at hp ⊢
        rw [List.cons_append] at hp ⊢
        have hihr := ih f2 hrest hf2
        simp [parseTerminatedF, hp, hihr, bind_ok_P, map_ok_P, tok_beq_comma_self]

theorem joinComma_length (Es : List (List Tok)) (h : ∀ E ∈ Es, E ≠ []) :
    Es.length ≤ (joinComma Es).length + 1 := by
  induction Es with
  | nil => simp [joinComma]
  | cons E Es ih =>
    cases Es with
    | nil => simp [joinComma]
    | cons E2 Es2 =>
      have hE : E ≠ [] := h E (List.mem_cons_self E (E2 :: Es2))
      have h2 : ∀ X ∈ E2 :: Es2, X ≠ [] := fun X hX => h X (List.mem_cons_of_mem E hX)
      have hih := ih h2
      have hlen : 1 ≤ E.length := List.length_pos.mpr hE
      have hj : joinComma (E :: E2 :: Es2) = E ++ Tok.comma :: joinComma (E2 :: Es2) := rfl
      rw [hj]
      simp only [List.length_append, List.length_cons] at hih ⊢
      omega

theorem meta_nonType (ts : List Tok) (r : RsTestAttribute) (rest : List Tok)
    (h : rsTestAttributeMeta ts = .ok (r, rest)) : ∀ i ty, r ≠ .Type i ty := by
  unfold rsTestAttributeMeta at h
  cases hnm : nestedMetaParse ts with
  | error e => rw [hnm] at h; exact absurd h (by simp [bind_error_P])
  | ok p =>
    obtain ⟨nm, r1⟩ := p
    rw [hnm, bind_ok_P] at h
    dsimp only at h
    cases hnl : noLiteralNested nm with
    | error e => rw [hnl] at h; exact absurd h (by simp [bind_error_P])
    | ok m =>
      rw [hnl, bind_ok_P] at h
      cases m with
      | word i =>
          have : r = .Attr i := by
            have hinj : ((RsTestAttribute.Attr i), r1) = (r, rest) := by injection h
            exact (congrArg Prod.fst hinj).symm
          subst this
          intro i2 ty hc
          exact RsTestAttribute.noConfusion hc
      | list i ns =>
          dsimp only at h
          cases hm1 : ns.mapM noLiteralNested with
          | error e => rw [hm1] at h; exact absurd h (by simp [bind_error_P])
          | ok ms =>
            rw [hm1, bind_ok_P] at h
            cases hm2 : ms.mapM justWordMeta with
            | error e => rw [hm2] at h; exact absurd h (by simp [bind_error_P])
            | ok ids =>
              rw [hm2, bind_ok_P] at h
              have : r = .Tagged i ids := by
                have hinj : ((RsTestAttribute.Tagged i ids), r1) = (r, rest) := by injection h
                exact (congrArg Prod.fst hinj).symm
              subst this
              intro i2 ty hc
              exact RsTestAttribute.noConfusion hc
      | nameValue i l => exact absurd h (by simp)

/-- C1 counterexample: for the input case(Unwrap(42)), whose sole argument
Unwrap(42) is a host-language expression (the direct expression parser
accepts it), TestCase parsing does not succeed under either diagnostic
backend: the Unwrap peek commits to the deprecated wrapped form, which
then rejects the non-string inner argument, so the parsed argument is
never structurally equal to the written expression. -/
theorem C1_counterexample :
    isOkE (TestCase.parse true [Tok.ident (r"case"), Tok.group .paren
      [Tok.ident (r"Unwrap"), Tok.group .paren [Tok.litTok (.other (r"42"))]]]) = false ∧
    isOkE (TestCase.parse false [Tok.ident (r"case"), Tok.group .paren
      [Tok.ident (r"Unwrap"), Tok.group .paren [Tok.litTok (.other (r"42"))]]]) = false ∧
    isOkE (parseExpr [Tok.ident (r"Unwrap"), Tok.group .paren [Tok.litTok (.other (r"42"))]]) = true :=
  ⟨rfl, rfl, rfl⟩

/-- C1 (amended): for every input case(E1, ..., En) whose arguments are
expressions not of the deprecated Unwrap-call shape, TestCase parsing
succeeds with n arguments, no description, and the i-th argument
structurally equal to Ei; and case::desc(42, 24) parses to description
desc and arguments 42 and 24. -/
theorem C1_case_parse (useDiag : Bool) (Es : List (List Tok))
    (h : ∀ E ∈ Es, E ≠ [] ∧ Tok.comma ∉ E ∧ isUnwrapCallShape E = false) :
    (TestCase.parse useDiag [Tok.ident (r"case"), Tok.group .paren (joinComma Es)] =
      .ok (⟨Es.map (fun E => ⟨ExprT.tokens E⟩), none⟩, [])) ∧
    (TestCase.parse useDiag [Tok.ident (r"case"), Tok.colons, Tok.ident (r"desc"),
        Tok.group .paren [Tok.litTok (.other (r"42")), Tok.comma, Tok.litTok (.other (r"24"))]] =
      .ok (⟨[⟨.tokens [Tok.litTok (.other (r"42"))]⟩, ⟨.tokens [Tok.litTok (.other (r"24"))]⟩],
            some (r"desc")⟩, [])) := by
  constructor
  · have hlen : Es.length ≤ (joinComma Es).length + 1 :=
      joinComma_length Es (fun E hE => (h E hE).1)
    have hterm := terminated_joinComma useDiag Es ((joinComma Es).length + 1) h hlen
    simp [TestCase.parse, parseIdent, bind_ok_P, hterm]
  · rfl

/-- C1 witness: the amended theorem evaluated at the one-argument input
case(7). -/
theorem C1_witness :
    TestCase.parse true [Tok.ident (r"case"), Tok.group .paren [Tok.litTok (.other (r"7"))]] =
      .ok (⟨[⟨ExprT.tokens [Tok.litTok (.other (r"7"))]⟩], none⟩, []) :=
  (C1_case_parse true [[Tok.litTok (.other (r"7"))]]
    (fun E hE => by
      rw [List.mem_singleton] at hE
      subst hE
      exact ⟨by simp, by simp, rfl⟩)).1

/-- C2 counterexample: on input beginning with the double-colon, the
Parametrize and Matrix directive parsers fail with their generic errors
while the RsTest directive parser succeeds with an empty item list, so
the behaviour is not identical across the four directives. -/
theorem C2_counterexample :
    ParametrizeInfo.parse true [Tok.colons, Tok.ident (r"trace")] =
      .error ⟨none, r"Cannot parse parametrize info", false⟩ ∧
    MatrixInfo.parse true [Tok.colons, Tok.ident (r"trace")] =
      .error ⟨none, r"Cannot parse matrix info", false⟩ ∧
    RsTestInfo.parse [Tok.colons, Tok.ident (r"trace")] =
      .ok (⟨⟨[]⟩, ⟨[.Attr (r"trace")]⟩⟩, []) :=
  ⟨rfl, rfl, rfl⟩

/-- C2 (amended): only the RsTest and Fixture item-list parsers guard on
a leading double-colon; for them any such input yields an empty item
list with nothing consumed, and the directive parsers then parse only
the modifier chain, identically for these two.  The Parametrize
directive parser lacks the guard and fails on every such input with its
generic cannot-parse error; the Matrix directive parser also lacks the
guard and fails on every such input, with its generic cannot-parse
error exactly when the token two positions ahead is not the arrow (when
it is, the committed ValueList branch fails with its identifier
error instead). -/
theorem C2_double_colon_start (useDiag : Bool) (rest : List Tok) :
    RsTestData.parse (Tok.colons :: rest) = .ok (⟨[]⟩, Tok.colons :: rest) ∧
    FixtureData.parse (Tok.colons :: rest) = .ok (⟨[]⟩, Tok.colons :: rest) ∧
    RsTestInfo.parse (Tok.colons :: rest) =
      (Modifiers.parse rest).map (fun pr => (⟨⟨[]⟩, pr.1⟩, pr.2)) ∧
    FixtureInfo.parse (Tok.colons :: rest) =
      (Modifiers.parse rest).map (fun pr => (⟨⟨[]⟩, pr.1⟩, pr.2)) ∧
    ParametrizeInfo.parse useDiag (Tok.colons :: rest) =
      .error ⟨none, r"Cannot parse parametrize info", false⟩ ∧
    isOkE (MatrixInfo.parse useDiag (Tok.colons :: rest)) = false ∧
    (rest.head? ≠ some Tok.arrow →
      MatrixInfo.parse useDiag (Tok.colons :: rest) =
        .error ⟨none, r"Cannot parse matrix info", false⟩) := by
  refine ⟨rfl, rfl, rfl, rfl, rfl, ?_, ?_⟩
  · cases rest with
    | nil => rfl
    | cons t1 ts2 => cases t1 <;> rfl
  · intro h
    cases rest with
    | nil => rfl
    | cons t1 ts2 =>
      cases t1
      case arrow => exact absurd rfl h
      all_goals rfl

/-- C2 witness: the amended theorem evaluated at the input consisting of
the double-colon followed by the identifier trace, whose lookahead is
not the arrow, so the Matrix parser fails with its generic error. -/
theorem C2_witness :
    MatrixInfo.parse true [Tok.colons, Tok.ident (r"trace")] =
      .error ⟨none, r"Cannot parse matrix info", false⟩ :=
  (C2_double_colon_start true [Tok.ident (r"trace")]).2.2.2.2.2.2 (by simp)

/-- C3: for every identifier, the value-list input name => [] fails with
the empty-list error positioned at the bracket group; and every
successfully parsed ValueList has a non-empty values sequence. -/
theorem C3_empty_value_list :
    (∀ (useDiag : Bool) (n : String),
      ValueList.parse useDiag [Tok.ident n, Tok.arrow, Tok.group .bracket []] =
        .error ⟨some [Tok.group .bracket []], r"Values list should not be empty", false⟩) ∧
    (∀ (useDiag : Bool) (ts : List Tok) (v : ValueList) (rest : List Tok),
      ValueList.parse useDiag ts = .ok (v, rest) → v.values ≠ []) := by
  constructor
  · intro useDiag n
    rfl
  · intro useDiag ts v rest h
    unfold ValueList.parse at h
    cases hpi : parseIdent ts with
    | error e => rw [hpi] at h; exact absurd h (by simp [bind_error_P])
    | ok p =>
      obtain ⟨arg, r1⟩ := p
      rw [hpi, bind_ok_P] at h
      dsimp only at h
      cases het : expectTok Tok.arrow r1 with
      | error e => rw [het] at h; exact absurd h (by simp [bind_error_P])
      | ok r2 =>
        rw [het, bind_ok_P] at h
        split at h
        next inner r3 =>
          cases hvs : parseTerminatedF (CaseArg.parse useDiag) Tok.comma (inner.length + 1) inner with
          | error e => rw [hvs] at h; exact absurd h (by simp [bind_error_P])
          | ok vs =>
            rw [hvs, bind_ok_P] at h
            split at h
            next hlen => exact absurd h (by simp)
            next hlen =>
              have hinj : ((⟨arg, vs⟩ : ValueList), r3) = (v, rest) := by
                injection h
              have hv : v = ⟨arg, vs⟩ := by
                have := congrArg Prod.fst hinj
                exact this.symm
              subst hv
              intro hc
              exact hlen (by simp [show vs = [] from hc])
        next o ho => exact absurd h (by simp)

/-- C3 witness: the non-emptiness statement evaluated at the parse of
a => [1]. -/
theorem C3_witness :
    (⟨r"a", [⟨ExprT.tokens [Tok.litTok (.other (r"1"))]⟩]⟩ : ValueList).values ≠ [] :=
  C3_empty_value_list.2 true
    [Tok.ident (r"a"), Tok.arrow, Tok.group .bracket [Tok.litTok (.other (r"1"))]]
    ⟨r"a", [⟨ExprT.tokens [Tok.litTok (.other (r"1"))]⟩]⟩ [] rfl

/-- C4 counterexample: when no alternative matches a parametrize item,
the generic cannot-parse error is carried at the call-site span (modelled
as none), not at the span of the current token (the literal 42). -/
theorem C4_counterexample :
    ParametrizeItem.parse true [Tok.litTok (.other (r"42"))] =
      .error ⟨none, r"Cannot parse parametrize info", false⟩ ∧
    (none : Option (List Tok)) ≠ some [Tok.litTok (.other (r"42"))] :=
  ⟨rfl, by simp⟩

/-- C4 (amended): parametrize item classification tries TestCase, then
Fixture, then a bare identifier, each on a forked cursor with rollback:
case(42) is classified as a TestCase even though the Fixture parser
would also accept it, a bare identifier (including the word case without
a following parenthesis) is classified as an argument name without
consuming a sibling's parenthesis, and when nothing matches the parse
fails with the generic error carried at the call-site span. -/
theorem C4_parametrize_item :
    ParametrizeData.parse true [Tok.ident (r"case"), Tok.comma, Tok.ident (r"case"),
        Tok.group .paren [Tok.litTok (.other (r"42"))]] =
      .ok (⟨[.CaseArgName (r"case"),
             .TestCase ⟨[⟨.tokens [Tok.litTok (.other (r"42"))]⟩], none⟩]⟩, []) ∧
    ParametrizeItem.parse true [Tok.ident (r"case"), Tok.group .paren [Tok.litTok (.other (r"42"))]] =
      .ok (.TestCase ⟨[⟨.tokens [Tok.litTok (.other (r"42"))]⟩], none⟩, []) ∧
    isOkE (Fixture.parse [Tok.ident (r"case"), Tok.group .paren [Tok.litTok (.other (r"42"))]]) = true ∧
    ParametrizeItem.parse true [Tok.ident (r"arg")] = .ok (.CaseArgName (r"arg"), []) ∧
    ParametrizeItem.parse true [Tok.litTok (.other (r"42"))] =
      .error ⟨none, r"Cannot parse parametrize info", false⟩ :=
  ⟨rfl, rfl, rfl, rfl, rfl⟩

/-- C5: a single trailing comma at the end of a directive item list is
idempotent: arg, case(42) and arg, case(42), parse to the same directive
instance, with no additional empty element. -/
theorem C5_trailing_comma :
    ParametrizeInfo.parse true [Tok.ident (r"arg"), Tok.comma, Tok.ident (r"case"),
        Tok.group .paren [Tok.litTok (.other (r"42"))]] =
      .ok (⟨⟨[.CaseArgName (r"arg"),
              .TestCase ⟨[⟨.tokens [Tok.litTok (.other (r"42"))]⟩], none⟩]⟩, ⟨[]⟩⟩, []) ∧
    ParametrizeInfo.parse true [Tok.ident (r"arg"), Tok.comma, Tok.ident (r"case"),
        Tok.group .paren [Tok.litTok (.other (r"42"))], Tok.comma] =
      .ok (⟨⟨[.CaseArgName (r"arg"),
              .TestCase ⟨[⟨.tokens [Tok.litTok (.other (r"42"))]⟩], none⟩]⟩, ⟨[]⟩⟩, []) :=
  ⟨rfl, rfl⟩

/-- C6: the chain simple :: tagged(a,b) :: kind<(u32, T)> :: more(c,d)
parses to exactly four modifier entries in order, and an entry parse
yields the Type variant exactly when the token two positions ahead is an
opening angle bracket. -/
theorem C6_modifier_chain :
    (Modifiers.parse [Tok.ident (r"simple"), Tok.colons,
        Tok.ident (r"tagged"), Tok.group .paren [Tok.ident (r"a"), Tok.comma, Tok.ident (r"b")],
        Tok.colons,
        Tok.ident (r"kind"), Tok.lt,
        Tok.group .paren [Tok.ident (r"u32"), Tok.comma, Tok.ident (r"T")], Tok.gt,
        Tok.colons,
        Tok.ident (r"more"), Tok.group .paren [Tok.ident (r"c"), Tok.comma, Tok.ident (r"d")]] =
      .ok (⟨[.Attr (r"simple"), .Tagged (r"tagged") [r"a", r"b"],
             .Type (r"kind") [Tok.group .paren [Tok.ident (r"u32"), Tok.comma, Tok.ident (r"T")]],
             .Tagged (r"more") [r"c", r"d"]]⟩, [])) ∧
    (∀ (ts : List Tok) (r : RsTestAttribute) (rest : List Tok),
      RsTestAttribute.parse ts = .ok (r, rest) →
      ((∃ i ty, r = .Type i ty) ↔ ts.get? 1 = some Tok.lt)) := by
  constructor
  · rfl
  · intro ts r rest h
    rcases ts with _ | ⟨t0, _ | ⟨t1, ts2⟩⟩
    · have hm := meta_nonType [] r rest h
      simp [List.get?]
      intro i ty hc
      exact hm i ty hc
    · have hm := meta_nonType [t0] r rest h
      simp [List.get?]
      intro i ty hc
      exact hm i ty hc
    · cases t1
      case lt =>
        unfold RsTestAttribute.parse at h
        dsimp only at h
        cases hpi : parseIdent (t0 :: Tok.lt :: ts2) with
        | error e => rw [hpi] at h; exact absurd h (by simp [bind_error_P])
        | ok p =>
          obtain ⟨tag, r1⟩ := p
          rw [hpi, bind_ok_P] at h
          dsimp only at h
          cases het : expectTok Tok.lt r1 with
          | error e => rw [het] at h; exact absurd h (by simp [bind_error_P])
          | ok r2 =>
            rw [het, bind_ok_P] at h
            cases hpt : parseType r2 with
            | error e => rw [hpt] at h; exact absurd h (by simp [bind_error_P])
            | ok q =>
              obtain ⟨inner, r3⟩ := q
              rw [hpt, bind_ok_P] at h
              dsimp only at h
              cases hgt : expectTok Tok.gt r3 with
              | error e => rw [hgt] at h; exact absurd h (by simp [bind_error_P])
              | ok r4 =>
                rw [hgt, bind_ok_P] at h
                have : r = .Type tag inner := by
                  have hinj : ((RsTestAttribute.Type tag inner), r4) = (r, rest) := by injection h
                  exact (congrArg Prod.fst hinj).symm
                subst this
                simp [List.get?]
      all_goals {
        have hm := meta_nonType _ r rest h
        simp [List.get?]
        intro i ty hc
        exact hm i ty hc
      }

/-- C6 witness: the lookahead statement evaluated at the concrete typed
entry k<u32>. -/
theorem C6_witness :
    (∃ i ty, RsTestAttribute.Type (r"k") [Tok.ident (r"u32")] = .Type i ty) ↔
      ([Tok.ident (r"k"), Tok.lt, Tok.ident (r"u32"), Tok.gt].get? 1 = some Tok.lt) :=
  C6_modifier_chain.2 [Tok.ident (r"k"), Tok.lt, Tok.ident (r"u32"), Tok.gt]
    (.Type (r"k") [Tok.ident (r"u32")]) [] rfl

/-- C7: a modifier entry rejects with an error every name = value shape
(error Invalid attribute), every literal standing where a meta item is
required (an error always, and the error Unexpected literal whenever the
lookahead does not select the Type branch), and every non-identifier
item inside a tagged group's parentheses; a successful parse of a
call-shaped entry always yields a Tagged entry of bare identifiers. -/
theorem C7_invalid_modifier_entries :
    (∀ (i : String) (l : LitT) (rest : List Tok),
      RsTestAttribute.parse (Tok.ident i :: Tok.eqTok :: Tok.litTok l :: rest) =
        .error ⟨some [Tok.ident i, Tok.eqTok, Tok.litTok l], r"Invalid attribute", false⟩) ∧
    (∀ (l : LitT) (rest : List Tok),
      isOkE (RsTestAttribute.parse (Tok.litTok l :: rest)) = false) ∧
    (∀ (l : LitT) (rest : List Tok), ¬ (Tok.litTok l :: rest).get? 1 = some Tok.lt →
      RsTestAttribute.parse (Tok.litTok l :: rest) =
        .error ⟨some [Tok.litTok l], r"Unexpected literal", false⟩) ∧
    (∀ (i : String) (inner rest : List Tok) (r : RsTestAttribute) (rest2 : List Tok),
      RsTestAttribute.parse (Tok.ident i :: Tok.group .paren inner :: rest) = .ok (r, rest2) →
      ∃ ids, r = .Tagged i ids) ∧
    (RsTestAttribute.parse [Tok.ident (r"tag"), Tok.group .paren [Tok.litTok (.other (r"1"))]] =
      .error ⟨some [Tok.litTok (.other (r"1"))], r"Unexpected literal", false⟩) ∧
    (RsTestAttribute.parse [Tok.ident (r"tag"),
        Tok.group .paren [Tok.ident (r"a"), Tok.eqTok, Tok.litTok (.other (r"1"))]] =
      .error ⟨some [Tok.ident (r"a"), Tok.eqTok, Tok.litTok (.other (r"1"))], r"Should be an ident", false⟩) := by
  refine ⟨fun i l rest => rfl, ?_, ?_, ?_, rfl, rfl⟩
  · intro l rest
    cases rest with
    | nil => rfl
    | cons t1 rest2 => cases t1 <;> rfl
  · intro l rest h
    cases rest with
    | nil => rfl
    | cons t1 rest2 =>
      cases t1
      case lt => exact absurd (by simp [List.get?]) h
      all_goals rfl
  · intro i inner rest r rest2 h
    have hred : RsTestAttribute.parse (Tok.ident i :: Tok.group .paren inner :: rest) =
        rsTestAttributeMeta (Tok.ident i :: Tok.group .paren inner :: rest) := rfl
    rw [hred] at h
    unfold rsTestAttributeMeta at h
    have hnm : nestedMetaParse (Tok.ident i :: Tok.group .paren inner :: rest) =
        (nestedListParseF (toksWt (Tok.ident i :: Tok.group Delim.paren inner :: rest)) inner).map
          (fun ns => (NestedMetaT.meta (.list i ns), rest)) := rfl
    rw [hnm] at h
    cases hls : nestedListParseF (toksWt (Tok.ident i :: Tok.group Delim.paren inner :: rest)) inner with
    | error e => rw [hls] at h; exact absurd h (by simp [map_error_P, bind_error_P])
    | ok ns =>
      rw [hls] at h
      rw [show Except.map (fun ns => (NestedMetaT.meta (MetaT.list i ns), rest)) (Except.ok ns) =
          .ok (NestedMetaT.meta (MetaT.list i ns), rest) from rfl] at h
      rw [bind_ok_P] at h
      dsimp only at h
      rw [show noLiteralNested (NestedMetaT.meta (MetaT.list i ns)) = .ok (MetaT.list i ns) from rfl] at h
      rw [bind_ok_P] at h
      dsimp only at h
      cases hm1 : ns.mapM noLiteralNested with
      | error e => rw [hm1] at h; exact absurd h (by simp [bind_error_P])
      | ok ms =>
        rw [hm1, bind_ok_P] at h
        cases hm2 : ms.mapM justWordMeta with
        | error e => rw [hm2] at h; exact absurd h (by simp [bind_error_P])
        | ok ids =>
          rw [hm2, bind_ok_P] at h
          have hinj : ((RsTestAttribute.Tagged i ids), rest) = (r, rest2) := by injection h
          exact ⟨ids, (congrArg Prod.fst hinj).symm⟩

/-- C7 witness: the Tagged-shape statement evaluated at the concrete
entry g(a). -/
theorem C7_witness :
    ∃ ids, RsTestAttribute.Tagged (r"g") [r"a"] = .Tagged (r"g") ids :=
  C7_invalid_modifier_entries.2.2.2.1 (r"g") [Tok.ident (r"a")] []
    (.Tagged (r"g") [r"a"]) [] rfl

/-- C8: a matrix item whose token two positions ahead is the arrow is
parsed as a ValueList (never as a Fixture), regardless of its leading
identifier; otherwise a Fixture is tried on a fork, and if neither
matches the parse fails with the cannot-parse-matrix-info error; in
particular f => [1], f(2) parses as a ValueList then a Fixture of the
same name. -/
theorem C8_matrix_item :
    (∀ (useDiag : Bool) (t0 : Tok) (ts2 : List Tok),
      MatrixItem.parse useDiag (t0 :: Tok.arrow :: ts2) =
        (ValueList.parse useDiag (t0 :: Tok.arrow :: ts2)).map
          (fun pr => (.ValueList pr.1, pr.2))) ∧
    (∀ (useDiag : Bool) (t0 : Tok) (ts2 : List Tok) (r : MatrixItem) (rest : List Tok),
      MatrixItem.parse useDiag (t0 :: Tok.arrow :: ts2) = .ok (r, rest) →
      ∃ v, r = .ValueList v) ∧
    (MatrixInfo.parse true [Tok.ident (r"f"), Tok.arrow,
        Tok.group .bracket [Tok.litTok (.other (r"1"))], Tok.comma,
        Tok.ident (r"f"), Tok.group .paren [Tok.litTok (.other (r"2"))]] =
      .ok (⟨⟨[.ValueList ⟨r"f", [⟨.tokens [Tok.litTok (.other (r"1"))]⟩]⟩,
              .Fixture ⟨r"f", [.tokens [Tok.litTok (.other (r"2"))]]⟩]⟩, ⟨[]⟩⟩, [])) ∧
    (MatrixItem.parse true [Tok.litTok (.other (r"9"))] =
      .error ⟨none, r"Cannot parse matrix info", false⟩) := by
  refine ⟨fun useDiag t0 ts2 => rfl, ?_, rfl, rfl⟩
  intro useDiag t0 ts2 r rest h
  have ha : MatrixItem.parse useDiag (t0 :: Tok.arrow :: ts2) =
      (ValueList.parse useDiag (t0 :: Tok.arrow :: ts2)).map
        (fun pr => (.ValueList pr.1, pr.2)) := rfl
  rw [ha] at h
  cases hv : ValueList.parse useDiag (t0 :: Tok.arrow :: ts2) with
  | error e => rw [hv] at h; exact absurd h (by simp [map_error_P])
  | ok p =>
    rw [hv, map_ok_P] at h
    have hinj : ((MatrixItem.ValueList p.1), p.2) = (r, rest) := by injection h
    exact ⟨p.1, (congrArg Prod.fst hinj).symm⟩

/-- C8 witness: the never-a-Fixture statement evaluated at the concrete
slot x => [1]. -/
theorem C8_witness :
    ∃ v, MatrixItem.ValueList ⟨r"x", [⟨ExprT.tokens [Tok.litTok (.other (r"1"))]⟩]⟩ =
      .ValueList v :=
  C8_matrix_item.2.1 true (Tok.ident (r"x"))
    [Tok.group .bracket [Tok.litTok (.other (r"1"))]]
    (.ValueList ⟨r"x", [⟨ExprT.tokens [Tok.litTok (.other (r"1"))]⟩]⟩) [] rfl

/-- C9: for the argument Unwrap(42), the peek commits to the deprecated
wrapped form on the outer shape alone (the direct expression parser
would have accepted the tokens), and the parse then fails instead of
falling back: under the compiler-diagnostic backend with the
Invalid Unwrap argument error, under the console backend with a panic
raised inside report_deprecated before that error is constructed. -/
theorem C9_unwrap_argument :
    CaseArg.parse true [Tok.ident (r"Unwrap"), Tok.group .paren [Tok.litTok (.other (r"42"))]] =
      .error ⟨some [Tok.ident (r"Unwrap"), Tok.group .paren [Tok.litTok (.other (r"42"))]],
              r"Invalid Unwrap argument", false⟩ ∧
    CaseArg.parse false [Tok.ident (r"Unwrap"), Tok.group .paren [Tok.litTok (.other (r"42"))]] =
      .error ⟨none, r"panicked: called Option unwrap on a None value", true⟩ ∧
    unwrapPeek [Tok.ident (r"Unwrap"), Tok.group .paren [Tok.litTok (.other (r"42"))]] = true ∧
    isOkE (parseExpr [Tok.ident (r"Unwrap"), Tok.group .paren [Tok.litTok (.other (r"42"))]]) = true :=
  ⟨rfl, rfl, rfl, rfl⟩

/-- C10: a directive input ending with a double-colon followed by
nothing parses successfully with an empty modifier chain: modifier-chain
parsing of an empty remainder returns zero entries. -/
theorem C10_trailing_double_colon :
    ParametrizeInfo.parse true [Tok.ident (r"my_fixture"),
        Tok.group .paren [Tok.litTok (.other (r"42"))], Tok.colons] =
      .ok (⟨⟨[.Fixture ⟨r"my_fixture", [.tokens [Tok.litTok (.other (r"42"))]]⟩]⟩, ⟨[]⟩⟩, []) ∧
    RsTestInfo.parse [Tok.ident (r"my_fixture"),
        Tok.group .paren [Tok.litTok (.other (r"42"))], Tok.colons] =
      .ok (⟨⟨[.Fixture ⟨r"my_fixture", [.tokens [Tok.litTok (.other (r"42"))]]⟩]⟩, ⟨[]⟩⟩, []) ∧
    Modifiers.parse [] = .ok (⟨[]⟩, []) :=
  ⟨rfl, rfl, rfl⟩

end Rstest
